import Mathlib

/-!
Verification development for the transaction app's local financial-analysis
pipeline (feature extraction, statistics, smoothing forecaster, regression
gate, and the analysis orchestrator `analyzeFinances`).

Modelling conventions:
* JavaScript numbers are modelled as exact rationals (`ℚ`).
* A transaction's date is modelled by its parse result: `none` when
  `new Date(tx.date)` yields `NaN`, otherwise the (year, month) pair from
  which the `YYYY-MM` month key is formed.  Month keys are modelled as the
  (year, month) pair itself; lexicographic order on these pairs agrees with
  the string sort on zero-padded `YYYY-MM` keys.
* JavaScript objects used as keyed maps are modelled as association lists
  in insertion order (matching string-keyed property order); `Set` is
  modelled as a duplicate-free list in insertion order.
* The TensorFlow training/inference step is inherently nondeterministic;
  it is modelled by an oracle (`MLOutcome`) giving the outcome of the
  `try` block whenever the deterministic data-preparation gate of
  `buildAndTrainModel` admits training: either an exception or the raw
  network outputs, which `generateMLPredictions` rescales and clamps.
* Display-only report pieces that no claim touches (the localized month
  labels from `getNext3Months`, the `analyzedAt` wall-clock timestamp and
  the formatted insight strings) are elided from the report record.
-/

/-- A `YYYY-MM` month bucket key, as the (year, month) pair. -/
abbrev MonthKey := Int × Nat

/-- A transaction record as the analysis pipeline reads it.
`date` is the month-key parse result (`none` = unparseable date);
`category` is the raw `category` field (`none` = missing);
`amount` is the raw numeric coercion result (`none` = missing/NaN). -/
structure Tx where
  date : Option MonthKey
  type : String
  category : Option String
  amount : Option ℚ
deriving DecidableEq, Inhabited

/-- `tx.category || 'Other'`: missing or empty category falls back to "Other". -/
def effCategory (tx : Tx) : String :=
  match tx.category with
  | none => "Other"
  | some s => if s = "" then "Other" else s

/-- `Number(tx.amount) || 0`: missing/NaN amount coerces to 0. -/
def effAmount (tx : Tx) : ℚ :=
  tx.amount.getD 0

/-- Per-category sub-bucket inside one month. -/
structure CatBucket where
  cost : ℚ
  revenue : ℚ
deriving DecidableEq, Inhabited

/-- One month's aggregate bucket. -/
structure MonthBucket where
  cost : ℚ
  revenue : ℚ
  categories : List (String × CatBucket)
deriving DecidableEq, Inhabited

def emptyMonth : MonthBucket := ⟨0, 0, []⟩

/-- Association-list lookup (JavaScript object property read). -/
def alLookup {α β : Type} [DecidableEq α] (m : List (α × β)) (k : α) : Option β :=
  match m with
  | [] => none
  | (k1, v) :: rest => if k = k1 then some v else alLookup rest k

/-- Association-list update (JavaScript `obj[k] = f(obj[k] ?? d)`):
new keys are appended in insertion order. -/
def alUpdate {α β : Type} [DecidableEq α] (m : List (α × β)) (k : α) (d : β)
    (f : β → β) : List (α × β) :=
  match m with
  | [] => [(k, f d)]
  | (k1, v) :: rest =>
      if k = k1 then (k1, f v) :: rest else (k1, v) :: alUpdate rest k d f

/-- `Set.add`: insert if absent, keeping insertion order. -/
def addCat (cats : List String) (c : String) : List String :=
  if c ∈ cats then cats else cats ++ [c]

/-- One step of the `transactions.forEach` loop of `extractFeatures`. -/
def extractStep (acc : List (MonthKey × MonthBucket) × List String) (tx : Tx) :
    List (MonthKey × MonthBucket) × List String :=
  match tx.date with
  | none => acc
  | some mk =>
      let category := effCategory tx
      let amount := effAmount tx
      let cats := addCat acc.2 category
      let upd : MonthBucket → MonthBucket := fun b =>
        if tx.type = "cost" then
          { b with
            cost := b.cost + amount
            categories := alUpdate b.categories category ⟨0, 0⟩
              (fun cb => { cb with cost := cb.cost + amount }) }
        else
          { b with
            revenue := b.revenue + amount
            categories := alUpdate b.categories category ⟨0, 0⟩
              (fun cb => { cb with revenue := cb.revenue + amount }) }
      (alUpdate acc.1 mk emptyMonth upd, cats)

/-- `extractFeatures`: group transactions by month and category, collecting
the set of observed categories.  Transactions with unparseable dates are
skipped. -/
def extractFeatures (transactions : List Tx) :
    List (MonthKey × MonthBucket) × List String :=
  transactions.foldl extractStep ([], [])

/-! ### Statistics engine -/

/-- Lexicographic comparison on month keys; on `YYYY-MM` strings the
JavaScript default (string) sort agrees with it. -/
def keyLe (a b : MonthKey) : Bool :=
  a.1 < b.1 || (a.1 == b.1 && a.2 ≤ b.2)

def insertKey (x : MonthKey) : List MonthKey → List MonthKey
  | [] => [x]
  | y :: ys => if keyLe x y then x :: y :: ys else y :: insertKey x ys

/-- `Object.keys(monthlyData).sort()`. -/
def sortKeys : List MonthKey → List MonthKey
  | [] => []
  | x :: xs => insertKey x (sortKeys xs)

/-- `l.slice(-n)`: the last `n` elements (all of them when `n ≥ l.length`). -/
def takeLast {α : Type} (n : Nat) (l : List α) : List α :=
  l.drop (l.length - n)

/-- Mean of a list (0 for the empty list; only applied to nonempty lists). -/
def avgOf (l : List ℚ) : ℚ :=
  l.sum / (l.length : ℚ)

/-- The month bucket stored for key `m` (`monthlyData[m]`; the keys iterated
always exist, so the default is never reached on live paths). -/
def bucketOf (monthlyData : List (MonthKey × MonthBucket)) (m : MonthKey) :
    MonthBucket :=
  (alLookup monthlyData m).getD emptyMonth

/-- The trend computation of `calculateStatistics`, over the chronologically
sorted monthly cost series. -/
def calcTrend (costs : List ℚ) : String :=
  if costs.length ≥ 2 then
    let recentCosts := takeLast 3 costs
    if recentCosts.length ≥ 2 then
      let half := (recentCosts.length + 1) / 2
      let firstAvg := avgOf (recentCosts.take half)
      let secondAvg := avgOf (recentCosts.drop half)
      if secondAvg > firstAvg * 1.1 then "increasing"
      else if secondAvg < firstAvg * 0.9 then "decreasing"
      else "stable"
    else "stable"
  else "stable"

/-- Per-category running totals (`categoryTotals[cat]`). -/
structure CatTotal where
  cost : ℚ
  revenue : ℚ
  count : Nat
deriving DecidableEq, Inhabited

/-- The accumulation of `categoryTotals[cat]` over the month loop: the
source iterates months outer / categories inner, which is the same as this
independent per-category fold over the months. -/
def catTotalFold (monthlyData : List (MonthKey × MonthBucket))
    (months : List MonthKey) (cat : String) : CatTotal :=
  months.foldl
    (fun acc m =>
      match alLookup (bucketOf monthlyData m).categories cat with
      | none => acc
      | some cb => ⟨acc.cost + cb.cost, acc.revenue + cb.revenue, acc.count + 1⟩)
    ⟨0, 0, 0⟩

/-- Stable descending insertion by total cost (the `sort` comparator
`b.cost - a.cost` on a stable engine sort). -/
def insertByCost (x : String × CatTotal) :
    List (String × CatTotal) → List (String × CatTotal)
  | [] => [x]
  | y :: ys => if x.2.cost > y.2.cost then x :: y :: ys else y :: insertByCost x ys

def sortByCostDesc : List (String × CatTotal) → List (String × CatTotal)
  | [] => []
  | x :: xs => insertByCost x (sortByCostDesc xs)

structure Stats where
  avgMonthlyCost : ℚ
  avgMonthlyRevenue : ℚ
  totalCost : ℚ
  totalRevenue : ℚ
  trend : String
  topCategories : List String
  categoryTotals : List (String × CatTotal)
  months : List MonthKey
  numMonths : Nat
deriving DecidableEq, Inhabited

/-- `calculateStatistics`. -/
def calculateStatistics (monthlyData : List (MonthKey × MonthBucket))
    (categories : List String) : Stats :=
  let months := sortKeys (monthlyData.map Prod.fst)
  let totalCost := (months.map (fun m => (bucketOf monthlyData m).cost)).sum
  let totalRevenue := (months.map (fun m => (bucketOf monthlyData m).revenue)).sum
  let categoryTotals :=
    categories.map (fun cat => (cat, catTotalFold monthlyData months cat))
  let numMonths := if months.length = 0 then 1 else months.length
  let avgMonthlyCost := totalCost / (numMonths : ℚ)
  let avgMonthlyRevenue := totalRevenue / (numMonths : ℚ)
  let trend := calcTrend (months.map (fun m => (bucketOf monthlyData m).cost))
  let topCategories :=
    ((sortByCostDesc (categoryTotals.filter (fun p => decide (0 < p.2.cost)))).take 3).map
      Prod.fst
  { avgMonthlyCost := avgMonthlyCost
    avgMonthlyRevenue := avgMonthlyRevenue
    totalCost := totalCost
    totalRevenue := totalRevenue
    trend := trend
    topCategories := topCategories
    categoryTotals := categoryTotals
    months := months
    numMonths := numMonths }

/-! ### Smoothing forecaster -/

/-- `predictWithSmoothing`: single exponential smoothing with a linear
trend term, with average-based fallbacks on degenerate series. -/
def predictWithSmoothing (values : List ℚ) (periods : Nat) (alpha : ℚ)
    (fallbackAverage : ℚ) : List ℚ :=
  let nonZeroValues := values.filter (fun v => decide (0 < v))
  if nonZeroValues.length = 0 then
    if 0 < fallbackAverage then List.replicate periods fallbackAverage
    else List.replicate periods 0
  else if nonZeroValues.length = 1 then
    List.replicate periods (nonZeroValues.headD 0)
  else
    let forecast0 :=
      values.tail.foldl (fun f v => alpha * v + (1 - alpha) * f) (values.headD 0)
    let avg := nonZeroValues.sum / (nonZeroValues.length : ℚ)
    let forecast := if forecast0 < avg * 0.1 ∧ 0 < avg then avg else forecast0
    let recentValues := takeLast (min 6 values.length) values
    let trendFactor :=
      if recentValues.length ≥ 2 then
        let changes := List.zipWith (fun a b => b - a) recentValues recentValues.tail
        let tf := changes.sum / (changes.length : ℚ)
        let maxChange := avg * 0.2
        max (-maxChange) (min maxChange tf)
      else 0
    (List.range periods).map (fun (i : Nat) => max 0 (forecast + trendFactor * ((i : ℚ) + 1)))

/-! ### Regression forecaster -/

/-- The deterministic data-preparation part of `buildAndTrainModel`: the
insufficient-history gates and the sliding-window training set.  `none`
corresponds to the source returning `null` before any model is built. -/
def buildAndTrainModelData (monthlyData : List (MonthKey × MonthBucket)) :
    Option (List (List ℚ) × List (List ℚ)) :=
  let months := sortKeys (monthlyData.map Prod.fst)
  if months.length < 3 then none
  else
    let windowSize := min 3 (months.length - 1)
    let monthAt := fun (i : Nat) => bucketOf monthlyData (months.getD i (0, 0))
    let xs := (List.range (months.length - windowSize)).map (fun t =>
      ((List.range windowSize).map (fun j =>
        [(monthAt (t + j)).cost / 1000, (monthAt (t + j)).revenue / 1000])).flatten)
    let ys := (List.range (months.length - windowSize)).map (fun t =>
      [(monthAt (t + windowSize)).cost / 1000, (monthAt (t + windowSize)).revenue / 1000])
    if xs.length < 2 then none
    else some (xs, ys)

/-- Outcome of the model training/inference `try` block, whenever the data
gate admits training: an exception, or the three raw network outputs (one
(cost, revenue) pair per forward month, in model scale). -/
inductive MLOutcome where
  | exn : MLOutcome
  | raw : (ℚ × ℚ) → (ℚ × ℚ) → (ℚ × ℚ) → MLOutcome
deriving DecidableEq, Inhabited

/-- The rescale-and-clamp step of `generateMLPredictions` applied to one raw
network output pair. -/
def clampPrediction (p : ℚ × ℚ) : ℚ × ℚ :=
  (max 0 (p.1 * 1000), max 0 (p.2 * 1000))

/-- The `mlPredictions` value after the orchestrator's `try` block:
`none` when the data gate skips training or the block threw; otherwise the
three clamped model outputs. -/
def mlPredictionsOf (monthlyData : List (MonthKey × MonthBucket))
    (oracle : MLOutcome) : Option (List (ℚ × ℚ)) :=
  match buildAndTrainModelData monthlyData with
  | none => none
  | some _ =>
      match oracle with
      | .exn => none
      | .raw p1 p2 p3 => some [clampPrediction p1, clampPrediction p2, clampPrediction p3]

/-! ### Category trend and recommendation -/

/-- `monthlyData[m].categories[category]?.cost || 0`. -/
def catCostAtMonth (monthlyData : List (MonthKey × MonthBucket)) (m : MonthKey)
    (category : String) : ℚ :=
  match alLookup (bucketOf monthlyData m).categories category with
  | none => 0
  | some cb => cb.cost

/-- `monthlyData[m].categories[category]?.revenue || 0`. -/
def catRevenueAtMonth (monthlyData : List (MonthKey × MonthBucket)) (m : MonthKey)
    (category : String) : ℚ :=
  match alLookup (bucketOf monthlyData m).categories category with
  | none => 0
  | some cb => cb.revenue

/-- `getCategoryTrend`: trend label for one category's monthly cost series.
Note the thresholds are 1.15 / 0.85 and the labels are `up` / `down`
(the overall trend in `calculateStatistics` uses 1.1 / 0.9 and
`increasing` / `decreasing`). -/
def getCategoryTrend (monthlyData : List (MonthKey × MonthBucket))
    (months : List MonthKey) (category : String) : String :=
  if months.length < 2 then "stable"
  else
    let values := months.map (fun m => catCostAtMonth monthlyData m category)
    let recentValues := takeLast 3 values
    if recentValues.length < 2 then "stable"
    else
      let half := (recentValues.length + 1) / 2
      let firstAvg := avgOf (recentValues.take half)
      let secondAvg := avgOf (recentValues.drop half)
      if secondAvg > firstAvg * 1.15 then "up"
      else if secondAvg < firstAvg * 0.85 then "down"
      else "stable"

/-- `getRecommendation`. -/
def getRecommendation (category trend : String) (avgCost avgRevenue : ℚ) : String :=
  if trend = "up" ∧ 0 < avgCost then
    category ++ " spending is increasing. Consider setting a budget limit."
  else if trend = "down" ∧ 0 < avgCost then
    "Good job! " ++ category ++ " spending is decreasing."
  else if avgCost > avgRevenue ∧ 0 < avgRevenue then
    category ++ " costs exceed revenue. Review expenses."
  else
    category ++ " spending is stable."

/-! ### Analysis orchestrator -/

structure Breakdown where
  currentAverage : ℚ
  predictedTrend : String
  recommendation : String
deriving DecidableEq, Inhabited

/-- The analysis report (`analysis` object); display-only fields
(month labels, timestamp, insight strings) are elided. -/
structure Report where
  topSpendingCategories : List String
  averageMonthlySpending : ℚ
  averageMonthlyRevenue : ℚ
  spendingTrend : String
  totalHistoricalCost : ℚ
  totalHistoricalRevenue : ℚ
  predCosts : List (String × List ℚ)
  predRevenue : Option (List (String × List ℚ))
  totalCost : List ℚ
  totalRevenue : List ℚ
  netBalance : List ℚ
  categoryBreakdown : List (String × Breakdown)
  transactionCount : Nat
  monthsAnalyzed : Nat
  modelType : String
deriving DecidableEq, Inhabited

def monthlyDataOf (txs : List Tx) : List (MonthKey × MonthBucket) :=
  (extractFeatures txs).1

def categoriesOf (txs : List Tx) : List String :=
  (extractFeatures txs).2

def statsOf (txs : List Tx) : Stats :=
  calculateStatistics (monthlyDataOf txs) (categoriesOf txs)

def mlOf (txs : List Tx) (oracle : MLOutcome) : Option (List (ℚ × ℚ)) :=
  mlPredictionsOf (monthlyDataOf txs) oracle

/-- One category's monthly cost series over the analyzed months. -/
def catCostSeriesOf (txs : List Tx) (cat : String) : List ℚ :=
  (statsOf txs).months.map (fun m => catCostAtMonth (monthlyDataOf txs) m cat)

/-- One category's monthly revenue series over the analyzed months. -/
def catRevenueSeriesOf (txs : List Tx) (cat : String) : List ℚ :=
  (statsOf txs).months.map (fun m => catRevenueAtMonth (monthlyDataOf txs) m cat)

/-- `stats.categoryTotals[cat]` (the key is always present on live paths). -/
def catTotalOf (txs : List Tx) (cat : String) : CatTotal :=
  (alLookup (statsOf txs).categoryTotals cat).getD ⟨0, 0, 0⟩

/-- `stats.categoryTotals[cat].cost / (stats.categoryTotals[cat].count || 1)`. -/
def catAvgCostOf (txs : List Tx) (cat : String) : ℚ :=
  (catTotalOf txs cat).cost /
    ((if (catTotalOf txs cat).count = 0 then 1 else (catTotalOf txs cat).count : Nat) : ℚ)

/-- `stats.categoryTotals[cat].revenue / (stats.categoryTotals[cat].count || 1)`. -/
def catAvgRevenueOf (txs : List Tx) (cat : String) : ℚ :=
  (catTotalOf txs cat).revenue /
    ((if (catTotalOf txs cat).count = 0 then 1 else (catTotalOf txs cat).count : Nat) : ℚ)

/-- `categoryPredictions`. -/
def categoryPredictionsOf (txs : List Tx) : List (String × List ℚ) :=
  (categoriesOf txs).map (fun cat =>
    (cat, predictWithSmoothing (catCostSeriesOf txs cat) 3 0.3 (catAvgCostOf txs cat)))

/-- `categoryRevenuePredictions` (populated only for categories with some
positive monthly revenue). -/
def categoryRevenuePredictionsOf (txs : List Tx) : List (String × List ℚ) :=
  (categoriesOf txs).filterMap (fun cat =>
    if (catRevenueSeriesOf txs cat).any (fun v => decide (0 < v)) then
      some (cat, predictWithSmoothing (catRevenueSeriesOf txs cat) 3 0.3
        (catAvgRevenueOf txs cat))
    else none)

/-- Total monthly cost series. -/
def costSeriesOf (txs : List Tx) : List ℚ :=
  (statsOf txs).months.map (fun m => (bucketOf (monthlyDataOf txs) m).cost)

/-- Total monthly revenue series. -/
def revenueSeriesOf (txs : List Tx) : List ℚ :=
  (statsOf txs).months.map (fun m => (bucketOf (monthlyDataOf txs) m).revenue)

/-- Step 5: the (cost, revenue) total prediction pair before the
degenerate-data override — regression output when it exists and has some
positive value, smoothing otherwise. -/
def totalsBaseOf (txs : List Tx) (oracle : MLOutcome) : List ℚ × List ℚ :=
  let smoothed :=
    (predictWithSmoothing (costSeriesOf txs) 3 0.3 (statsOf txs).avgMonthlyCost,
     predictWithSmoothing (revenueSeriesOf txs) 3 0.3 (statsOf txs).avgMonthlyRevenue)
  match mlOf txs oracle with
  | some l =>
      if l.any (fun p => decide (0 < p.1) || decide (0 < p.2)) then
        (l.map Prod.fst, l.map Prod.snd)
      else smoothed
  | none => smoothed

/-- `totalCostPredictions` after the all-zeros override. -/
def totalCostPredictionsOf (txs : List Tx) (oracle : MLOutcome) : List ℚ :=
  let base := (totalsBaseOf txs oracle).1
  if base.all (fun v => decide (v = 0)) ∧ 0 < (statsOf txs).avgMonthlyCost then
    List.replicate 3 (statsOf txs).avgMonthlyCost
  else base

/-- `totalRevenuePredictions` after the all-zeros override. -/
def totalRevenuePredictionsOf (txs : List Tx) (oracle : MLOutcome) : List ℚ :=
  let base := (totalsBaseOf txs oracle).2
  if base.all (fun v => decide (v = 0)) ∧ 0 < (statsOf txs).avgMonthlyRevenue then
    List.replicate 3 (statsOf txs).avgMonthlyRevenue
  else base

/-- `netBalancePredictions = totalRevenuePredictions.map((rev, i) =>
rev - totalCostPredictions[i])`; both series have length 3. -/
def netBalancePredictionsOf (txs : List Tx) (oracle : MLOutcome) : List ℚ :=
  List.zipWith (fun rev cost => rev - cost)
    (totalRevenuePredictionsOf txs oracle) (totalCostPredictionsOf txs oracle)

/-- One `categoryBreakdown` entry. -/
def breakdownEntryOf (txs : List Tx) (cat : String) : Breakdown :=
  let avgCost := catAvgCostOf txs cat
  let avgRevenue := catAvgRevenueOf txs cat
  let trend := getCategoryTrend (monthlyDataOf txs) (statsOf txs).months cat
  { currentAverage := if avgCost = 0 then avgRevenue else avgCost
    predictedTrend := trend
    recommendation := getRecommendation cat trend avgCost avgRevenue }

def categoryBreakdownOf (txs : List Tx) : List (String × Breakdown) :=
  (categoriesOf txs).map (fun cat => (cat, breakdownEntryOf txs cat))

/-- The report assembled on the success path of `analyzeFinances`. -/
def analysisCore (txs : List Tx) (oracle : MLOutcome) : Report :=
  { topSpendingCategories := (statsOf txs).topCategories
    averageMonthlySpending := (statsOf txs).avgMonthlyCost
    averageMonthlyRevenue := (statsOf txs).avgMonthlyRevenue
    spendingTrend := (statsOf txs).trend
    totalHistoricalCost := (statsOf txs).totalCost
    totalHistoricalRevenue := (statsOf txs).totalRevenue
    predCosts := categoryPredictionsOf txs
    predRevenue :=
      if (categoryRevenuePredictionsOf txs).length ≠ 0 then
        some (categoryRevenuePredictionsOf txs)
      else none
    totalCost := totalCostPredictionsOf txs oracle
    totalRevenue := totalRevenuePredictionsOf txs oracle
    netBalance := netBalancePredictionsOf txs oracle
    categoryBreakdown := categoryBreakdownOf txs
    transactionCount := txs.length
    monthsAnalyzed := (statsOf txs).numMonths
    modelType := if (mlOf txs oracle).isSome then "neural-network" else "statistical" }

/-- `analyzeFinances`: the input is `none` when the caller passes a
null/undefined transaction list; the two thrown errors are the `NoDataError`
conditions. -/
def analyzeFinances (transactions : Option (List Tx)) (oracle : MLOutcome) :
    Except String Report :=
  match transactions with
  | none => .error "No transactions available for analysis."
  | some txs =>
      if txs.length = 0 then .error "No transactions available for analysis."
      else if (extractFeatures txs).1.length = 0 then
        .error "No valid transaction data found. Please add some transactions first."
      else .ok (analysisCore txs oracle)

/-- The report of a successful analysis (used to state concrete-input facts
without binders; `default` is never reached at the inputs used). -/
def reportOf (txs : List Tx) (oracle : MLOutcome) : Report :=
  match analyzeFinances (some txs) oracle with
  | .ok r => r
  | .error _ => default

/-! ### Specification reference algorithms

These definitions follow the wording of the specification (and of the
claims derived from it), to be compared with the definitions translated
from the source above. -/

/-- Consecutive differences `l[i+1] - l[i]`. -/
def diffsOf (l : List ℚ) : List ℚ :=
  List.zipWith (fun a b => b - a) l l.tail

/-- The §4.3 reference smoothing algorithm, following the spec text:
no positive value → `periods` copies of `fallbackAverage` when positive,
else zeros; exactly one positive value → `periods` copies of it; otherwise
exponential smoothing seeded at `series[0]`, an average override when the
forecast falls below `0.1 * avg`, and a trend factor equal to the clamped
mean of consecutive differences of the last `min(6, len)` values. -/
def specPredict (series : List ℚ) (periods : Nat) (alpha : ℚ)
    (fallbackAverage : ℚ) : List ℚ :=
  let positives := series.filter (fun v => decide (0 < v))
  if positives.length = 0 then
    if 0 < fallbackAverage then List.replicate periods fallbackAverage
    else List.replicate periods 0
  else if positives.length = 1 then
    List.replicate periods (positives.headD 0)
  else
    let smoothed :=
      series.tail.foldl (fun f v => alpha * v + (1 - alpha) * f) (series.headD 0)
    let avg := avgOf positives
    let forecast := if smoothed < 0.1 * avg then avg else smoothed
    let trendRaw := avgOf (diffsOf (takeLast (min 6 series.length) series))
    let trendFactor := max (-(0.2 * avg)) (min (0.2 * avg) trendRaw)
    (List.range periods).map (fun (i : Nat) => max 0 (forecast + trendFactor * ((i : ℚ) + 1)))

/-- The §4.2 trend rule, following the spec text: `stable` with fewer than
2 months; otherwise split the last up-to-3 cost values into a first half of
size `ceil(n/2)` and the rest, and compare half means against the
1.1 / 0.9 thresholds. -/
def specTrend (costs : List ℚ) : String :=
  if costs.length < 2 then "stable"
  else
    let window := takeLast 3 costs
    let half := (window.length + 1) / 2
    let firstAvg := avgOf (window.take half)
    let secondAvg := avgOf (window.drop half)
    if secondAvg > firstAvg * 1.1 then "increasing"
    else if secondAvg < firstAvg * 0.9 then "decreasing"
    else "stable"

/-- The per-category trend rule as claim C7 states it: the §4.2 method
(1.1 / 0.9 thresholds) applied to the category's monthly cost series,
with the category labels `up` / `down`. -/
def claimCatTrend (values : List ℚ) : String :=
  if values.length < 2 then "stable"
  else
    let window := takeLast 3 values
    let half := (window.length + 1) / 2
    let firstAvg := avgOf (window.take half)
    let secondAvg := avgOf (window.drop half)
    if secondAvg > firstAvg * 1.1 then "up"
    else if secondAvg < firstAvg * 0.9 then "down"
    else "stable"

/-- The per-category trend rule the source actually implements: the same
windowing but with the 1.15 / 0.85 thresholds. -/
def amendedCatTrend (values : List ℚ) : String :=
  if values.length < 2 then "stable"
  else
    let window := takeLast 3 values
    let half := (window.length + 1) / 2
    let firstAvg := avgOf (window.take half)
    let secondAvg := avgOf (window.drop half)
    if secondAvg > firstAvg * 1.15 then "up"
    else if secondAvg < firstAvg * 0.85 then "down"
    else "stable"

/-! ### Concrete inputs used by witnesses and counterexamples -/

def isOkE : Except String Report → Bool
  | .ok _ => true
  | .error _ => false

def c3txs : List Tx :=
  [⟨some (2024, 1), "cost", some "Food", some 30⟩,
   ⟨some (2024, 1), "revenue", some "Salary", some 100⟩,
   ⟨some (2024, 2), "cost", none, some 20⟩,
   ⟨none, "cost", some "Ghost", some 5⟩]

def c4md : List (MonthKey × MonthBucket) :=
  [((2024, 1), ⟨100, 0, []⟩), ((2024, 2), ⟨100, 0, []⟩), ((2024, 3), ⟨100, 0, []⟩),
   ((2024, 4), ⟨200, 0, []⟩), ((2024, 5), ⟨220, 0, []⟩)]

def c6txs : List Tx :=
  [⟨some (2024, 1), "cost", some "X", some 100⟩,
   ⟨some (2024, 2), "cost", some "X", some 100⟩,
   ⟨some (2024, 3), "cost", some "X", some 100⟩,
   ⟨some (2024, 4), "cost", some "X", some 100⟩,
   ⟨some (2024, 5), "cost", some "X", some 100⟩]

def c6oracle : MLOutcome := MLOutcome.raw (-1, -1) (-1, -1) (-1, -1)

def c7txs : List Tx :=
  [⟨some (2024, 1), "cost", some "X", some 100⟩,
   ⟨some (2024, 2), "cost", some "X", some 100⟩,
   ⟨some (2024, 3), "cost", some "X", some 112⟩]

def c7entry : Breakdown := breakdownEntryOf c7txs "X"

def c8txs : List Tx :=
  [⟨some (2024, 1), "cost", some "A", some 100⟩,
   ⟨some (2024, 1), "revenue", some "A", some 200⟩]

def c9txs : List Tx := [⟨none, "cost", some "Ghost", some 5⟩]

def c10txs : List Tx :=
  [⟨some (2024, 1), "cost", some "X", some 100⟩,
   ⟨some (2024, 1), "cost", some "Y", some 50⟩,
   ⟨some (2024, 2), "cost", some "Y", some 50⟩]

def c10entry : Breakdown := breakdownEntryOf c10txs "X"

/-! ### Basic lemmas -/

theorem takeLast_length {α : Type} (n : Nat) (l : List α) :
    (takeLast n l).length = min l.length n := by
  simp only [takeLast, List.length_drop]
  omega

theorem filter_pos_avg_pos (values : List ℚ)
    (h : (values.filter (fun v => decide (0 < v))).length ≠ 0) :
    0 < avgOf (values.filter (fun v => decide (0 < v))) := by
  set l := values.filter (fun v => decide (0 < v)) with hl
  have hne : l ≠ [] := by
    intro he
    rw [he] at h
    exact h rfl
  have hpos : ∀ x ∈ l, 0 < x := by
    intro x hx
    have := List.mem_filter.1 (hl ▸ hx)
    simpa using this.2
  have hs : 0 < l.sum := List.sum_pos l hpos hne
  have hlen : 0 < (l.length : ℚ) := by
    have : 0 < l.length := Nat.pos_of_ne_zero h
    exact_mod_cast this
  exact div_pos hs hlen

theorem predictWithSmoothing_length (series : List ℚ) (periods : Nat)
    (alpha fb : ℚ) : (predictWithSmoothing series periods alpha fb).length = periods := by
  simp only [predictWithSmoothing]
  split_ifs <;> first
    | rw [List.length_replicate]
    | rw [List.length_map, List.length_range]

theorem predictWithSmoothing_nonneg (series : List ℚ) (periods : Nat)
    (alpha fb : ℚ) : ∀ x ∈ predictWithSmoothing series periods alpha fb, 0 ≤ x := by
  intro x hx
  simp only [predictWithSmoothing] at hx
  by_cases h0 : (series.filter (fun v => decide (0 < v))).length = 0
  · rw [if_pos h0] at hx
    by_cases hfb : 0 < fb
    · rw [if_pos hfb] at hx
      rw [List.eq_of_mem_replicate hx]
      exact le_of_lt hfb
    · rw [if_neg hfb] at hx
      rw [List.eq_of_mem_replicate hx]
  · rw [if_neg h0] at hx
    by_cases h1 : (series.filter (fun v => decide (0 < v))).length = 1
    · rw [if_pos h1] at hx
      rw [List.eq_of_mem_replicate hx]
      cases he : series.filter (fun v => decide (0 < v)) with
      | nil =>
          rw [he] at h0
          simp at h0
      | cons a t =>
          have ha : a ∈ series.filter (fun v => decide (0 < v)) := by
            rw [he]
            exact List.mem_cons_self a t
          have hap : 0 < a := by simpa using (List.mem_filter.1 ha).2
          simpa using le_of_lt hap
    · rw [if_neg h1] at hx
      simp only [List.mem_map] at hx
      obtain ⟨i, -, rfl⟩ := hx
      exact le_max_left 0 _

/-- C2 core: the translated smoothing forecaster coincides with the §4.3
reference algorithm. -/
theorem predictWithSmoothing_eq_spec (series : List ℚ) (periods : Nat)
    (alpha fb : ℚ) :
    predictWithSmoothing series periods alpha fb = specPredict series periods alpha fb := by
  simp only [predictWithSmoothing, specPredict]
  by_cases h0 : (series.filter (fun v => decide (0 < v))).length = 0
  · simp [h0]
  · by_cases h1 : (series.filter (fun v => decide (0 < v))).length = 1
    · simp [h0, h1]
    · have havg : 0 < avgOf (series.filter (fun v => decide (0 < v))) :=
        filter_pos_avg_pos series h0
      have hslen : 2 ≤ series.length := by
        have := List.length_filter_le (fun v => decide (0 < v)) series
        omega
      have hrec : 2 ≤ (takeLast (min 6 series.length) series).length := by
        rw [takeLast_length]
        omega
      rw [if_neg h0, if_neg h0, if_neg h1, if_neg h1]
      simp only [avgOf, diffsOf]
      set pos := series.filter (fun v => decide (0 < v)) with hposdef
      set S := series.tail.foldl (fun f v => alpha * v + (1 - alpha) * f) (series.headD 0)
        with hSdef
      set A := pos.sum / (pos.length : ℚ) with hAdef
      set recent := takeLast (min 6 series.length) series with hrecdef
      set T := (List.zipWith (fun a b => b - a) recent recent.tail).sum /
        ((List.zipWith (fun a b => b - a) recent recent.tail).length : ℚ) with hTdef
      have havgA : 0 < A := by
        rw [hAdef, hposdef]
        exact filter_pos_avg_pos series h0
      have hiff : (S < A * 0.1 ∧ 0 < A) ↔ S < 0.1 * A := by
        constructor
        · rintro ⟨hlt, -⟩
          rwa [mul_comm] at hlt
        · intro hlt
          exact ⟨by rwa [mul_comm] at hlt, havgA⟩
      have hF : (if S < A * 0.1 ∧ 0 < A then A else S) = if S < 0.1 * A then A else S :=
        if_congr hiff rfl rfl
      have hTr : (if recent.length ≥ 2 then max (-(A * 0.2)) (min (A * 0.2) T) else 0) =
          max (-(0.2 * A)) (min (0.2 * A) T) := by
        rw [if_pos hrec, mul_comm A (0.2 : ℚ)]
      simp only [hF, hTr]

/-- C4 core: the trend computed by `calculateStatistics` follows the §4.2
rule. -/
theorem calcTrend_eq_spec (costs : List ℚ) : calcTrend costs = specTrend costs := by
  simp only [calcTrend, specTrend]
  by_cases h : costs.length < 2
  · have h2 : ¬ (costs.length ≥ 2) := by omega
    rw [if_neg h2, if_pos h]
  · have h2 : costs.length ≥ 2 := by omega
    have hr : (takeLast 3 costs).length ≥ 2 := by
      rw [takeLast_length]
      omega
    rw [if_pos h2, if_neg h, if_pos hr]

/-- C7 core: `getCategoryTrend` equals the amended (1.15 / 0.85) rule on
the category's monthly cost series. -/
theorem getCategoryTrend_eq_amended (monthlyData : List (MonthKey × MonthBucket))
    (months : List MonthKey) (cat : String) :
    getCategoryTrend monthlyData months cat =
      amendedCatTrend (months.map (fun m => catCostAtMonth monthlyData m cat)) := by
  simp only [getCategoryTrend, amendedCatTrend, List.length_map]
  by_cases h : months.length < 2
  · rw [if_pos h, if_pos h]
  · have hr : ¬ (takeLast 3 (months.map (fun m => catCostAtMonth monthlyData m cat))).length
        < 2 := by
      rw [takeLast_length, List.length_map]
      omega
    rw [if_neg h, if_neg h, if_neg hr]

/-- Inversion of the orchestrator's success path. -/
theorem analyzeFinances_ok (txs : List Tx) (oracle : MLOutcome) (r : Report)
    (h : analyzeFinances (some txs) oracle = .ok r) : r = analysisCore txs oracle := by
  simp only [analyzeFinances] at h
  by_cases h1 : txs.length = 0
  · rw [if_pos h1] at h
    exact absurd h (by simp)
  · rw [if_neg h1] at h
    by_cases h2 : (extractFeatures txs).1.length = 0
    · rw [if_pos h2] at h
      exact absurd h (by simp)
    · rw [if_neg h2] at h
      exact (Except.ok.inj h).symm

/-! ### Category-set lemmas (C9) -/

theorem mem_addCat (cats : List String) (c0 c : String) :
    c ∈ addCat cats c0 ↔ c ∈ cats ∨ c = c0 := by
  simp only [addCat]
  by_cases h : c0 ∈ cats
  · rw [if_pos h]
    constructor
    · exact Or.inl
    · rintro (hc | rfl)
      · exact hc
      · exact h
  · rw [if_neg h]
    simp

theorem addCat_nodup (cats : List String) (c0 : String) (h : cats.Nodup) :
    (addCat cats c0).Nodup := by
  simp only [addCat]
  by_cases hm : c0 ∈ cats
  · rwa [if_pos hm]
  · rw [if_neg hm]
    simpa [List.nodup_append] using ⟨h, hm⟩

theorem extract_cats_mem (txs : List Tx) :
    ∀ (acc : List (MonthKey × MonthBucket) × List String) (c : String),
      c ∈ (txs.foldl extractStep acc).2 ↔
        c ∈ acc.2 ∨ ∃ tx ∈ txs, tx.date.isSome ∧ effCategory tx = c := by
  induction txs with
  | nil => simp
  | cons tx rest ih =>
      intro acc c
      rw [List.foldl_cons, ih]
      cases htx : tx.date with
      | none =>
          simp only [extractStep, htx, List.mem_cons]
          constructor
          · rintro (hc | ⟨t, ht, hs, he⟩)
            · exact Or.inl hc
            · exact Or.inr ⟨t, Or.inr ht, hs, he⟩
          · rintro (hc | ⟨t, (rfl | ht), hs, he⟩)
            · exact Or.inl hc
            · rw [htx] at hs
              exact absurd hs (by simp)
            · exact Or.inr ⟨t, ht, hs, he⟩
      | some mk =>
          simp only [extractStep, htx, mem_addCat, List.mem_cons]
          constructor
          · rintro ((hc | rfl) | ⟨t, ht, hs, he⟩)
            · exact Or.inl hc
            · exact Or.inr ⟨tx, Or.inl rfl, by simp [htx], rfl⟩
            · exact Or.inr ⟨t, Or.inr ht, hs, he⟩
          · rintro (hc | ⟨t, (rfl | ht), hs, he⟩)
            · exact Or.inl (Or.inl hc)
            · exact Or.inl (Or.inr he.symm)
            · exact Or.inr ⟨t, ht, hs, he⟩

theorem extract_cats_nodup (txs : List Tx) :
    ∀ (acc : List (MonthKey × MonthBucket) × List String),
      acc.2.Nodup → ((txs.foldl extractStep acc).2).Nodup := by
  induction txs with
  | nil => exact fun acc h => h
  | cons tx rest ih =>
      intro acc hacc
      rw [List.foldl_cons]
      apply ih
      cases htx : tx.date with
      | none => simpa [extractStep, htx] using hacc
      | some mk =>
          simp only [extractStep, htx]
          exact addCat_nodup _ _ hacc

/-! ### Association-list lemmas (C3) -/

theorem alUpdate_sum {α β : Type} [DecidableEq α] (g : β → ℚ)
    (m : List (α × β)) (k : α) (d : β) (f : β → β) (δ : ℚ)
    (hf : ∀ b, g (f b) = g b + δ) (hd : g d = 0) :
    ((alUpdate m k d f).map (fun kv => g kv.2)).sum =
      (m.map (fun kv => g kv.2)).sum + δ := by
  induction m with
  | nil => simp [alUpdate, hf, hd]
  | cons kv rest ih =>
      obtain ⟨k1, v⟩ := kv
      simp only [alUpdate]
      by_cases h : k = k1
      · rw [if_pos h]
        simp only [List.map_cons, List.sum_cons, hf]
        ring
      · rw [if_neg h]
        simp only [List.map_cons, List.sum_cons, ih]
        ring

theorem alLookup_alUpdate_self {α β : Type} [DecidableEq α]
    (m : List (α × β)) (k : α) (d : β) (f : β → β) :
    alLookup (alUpdate m k d f) k = some (f ((alLookup m k).getD d)) := by
  induction m with
  | nil => simp [alUpdate, alLookup]
  | cons kv rest ih =>
      obtain ⟨k1, v⟩ := kv
      simp only [alUpdate, alLookup]
      by_cases h : k = k1
      · rw [if_pos h]
        simp [alLookup, h]
      · rw [if_neg h]
        simp [alLookup, h, ih]

theorem alLookup_alUpdate_ne {α β : Type} [DecidableEq α]
    (m : List (α × β)) (k k1 : α) (d : β) (f : β → β) (h : k1 ≠ k) :
    alLookup (alUpdate m k d f) k1 = alLookup m k1 := by
  induction m with
  | nil => simp [alUpdate, alLookup, h]
  | cons kv rest ih =>
      obtain ⟨k2, v⟩ := kv
      simp only [alUpdate]
      by_cases h2 : k = k2
      · rw [if_pos h2]
        subst h2
        simp [alLookup, h]
      · rw [if_neg h2]
        simp only [alLookup]
        by_cases h3 : k1 = k2
        · rw [if_pos h3, if_pos h3]
        · rw [if_neg h3, if_neg h3, ih]

theorem alUpdate_keys_mem {α β : Type} [DecidableEq α]
    (m : List (α × β)) (k a : α) (d : β) (f : β → β) :
    a ∈ (alUpdate m k d f).map Prod.fst ↔ a ∈ m.map Prod.fst ∨ a = k := by
  induction m with
  | nil => simp [alUpdate]
  | cons kv rest ih =>
      obtain ⟨k1, v⟩ := kv
      simp only [alUpdate]
      by_cases h : k = k1
      · rw [if_pos h]
        subst h
        simp only [List.map_cons, List.mem_cons]
        tauto
      · rw [if_neg h]
        simp only [List.map_cons, List.mem_cons, ih]
        tauto

theorem alUpdate_keys_nodup {α β : Type} [DecidableEq α]
    (m : List (α × β)) (k : α) (d : β) (f : β → β)
    (h : (m.map Prod.fst).Nodup) : ((alUpdate m k d f).map Prod.fst).Nodup := by
  induction m with
  | nil => simp [alUpdate]
  | cons kv rest ih =>
      obtain ⟨k1, v⟩ := kv
      simp only [alUpdate]
      simp only [List.map_cons, List.nodup_cons] at h
      by_cases hk : k = k1
      · rw [if_pos hk]
        simpa [List.nodup_cons] using h
      · rw [if_neg hk]
        simp only [List.map_cons, List.nodup_cons]
        refine ⟨?_, ih h.2⟩
        rw [alUpdate_keys_mem]
        rintro (hc | rfl)
        · exact h.1 hc
        · exact hk rfl

theorem alUpdate_mem {α β : Type} [DecidableEq α]
    (m : List (α × β)) (k : α) (d : β) (f : β → β) (kv : α × β)
    (h : kv ∈ alUpdate m k d f) :
    kv ∈ m ∨ kv = (k, f ((alLookup m k).getD d)) := by
  induction m with
  | nil =>
      simp only [alUpdate, List.mem_singleton] at h
      right
      simpa [alLookup] using h
  | cons kv1 rest ih =>
      obtain ⟨k1, v⟩ := kv1
      simp only [alUpdate] at h
      by_cases hk : k = k1
      · rw [if_pos hk] at h
        subst hk
        rcases List.mem_cons.1 h with rfl | hr
        · right
          simp [alLookup]
        · exact Or.inl (List.mem_cons_of_mem _ hr)
      · rw [if_neg hk] at h
        rcases List.mem_cons.1 h with rfl | hr
        · exact Or.inl (List.mem_cons_self _ _)
        · rcases ih hr with hm | he
          · exact Or.inl (List.mem_cons_of_mem _ hm)
          · right
            rw [he]
            have : alLookup ((k1, v) :: rest) k = alLookup rest k := by
              simp [alLookup, hk]
            rw [this]

theorem alLookup_mem {α β : Type} [DecidableEq α] (m : List (α × β)) (k : α)
    (v : β) (h : alLookup m k = some v) : (k, v) ∈ m := by
  induction m with
  | nil => simp [alLookup] at h
  | cons kv rest ih =>
      obtain ⟨k1, v1⟩ := kv
      simp only [alLookup] at h
      by_cases hk : k = k1
      · rw [if_pos hk] at h
        subst hk
        rw [Option.some.injEq] at h
        subst h
        exact List.mem_cons_self _ _
      · rw [if_neg hk] at h
        exact List.mem_cons_of_mem _ (ih h)

/-! ### Feature-extraction conservation lemmas (C3) -/

theorem extractStep_sumCost (acc : List (MonthKey × MonthBucket) × List String)
    (tx : Tx) :
    (((extractStep acc tx).1).map (fun kb => kb.2.cost)).sum =
      (acc.1.map (fun kb => kb.2.cost)).sum +
        (if tx.date.isSome ∧ tx.type = "cost" then effAmount tx else 0) := by
  cases htx : tx.date with
  | none =>
      simp [extractStep, htx]
  | some mk =>
      simp only [extractStep, htx, Option.isSome_some, true_and]
      by_cases ht : tx.type = "cost"
      · rw [if_pos ht]
        refine alUpdate_sum (fun (b : MonthBucket) => b.cost) _ _ _ _ (effAmount tx) ?_ rfl
        intro b
        dsimp only
        rw [if_pos ht]
      · rw [if_neg ht, add_zero]
        have := alUpdate_sum (fun (b : MonthBucket) => b.cost) acc.1 mk emptyMonth
          (fun b =>
            if tx.type = "cost" then
              { b with
                cost := b.cost + effAmount tx
                categories := alUpdate b.categories (effCategory tx) ⟨0, 0⟩
                  (fun cb => { cb with cost := cb.cost + effAmount tx }) }
            else
              { b with
                revenue := b.revenue + effAmount tx
                categories := alUpdate b.categories (effCategory tx) ⟨0, 0⟩
                  (fun cb => { cb with revenue := cb.revenue + effAmount tx }) })
          0 (fun b => by dsimp only; rw [if_neg ht]; simp) rfl
        rw [this, add_zero]

theorem extractStep_sumRevenue (acc : List (MonthKey × MonthBucket) × List String)
    (tx : Tx) :
    (((extractStep acc tx).1).map (fun kb => kb.2.revenue)).sum =
      (acc.1.map (fun kb => kb.2.revenue)).sum +
        (if tx.date.isSome ∧ ¬ tx.type = "cost" then effAmount tx else 0) := by
  cases htx : tx.date with
  | none =>
      simp [extractStep, htx]
  | some mk =>
      simp only [extractStep, htx, Option.isSome_some, true_and]
      by_cases ht : tx.type = "cost"
      · rw [if_neg (fun hc => hc ht), add_zero]
        have := alUpdate_sum (fun (b : MonthBucket) => b.revenue) acc.1 mk emptyMonth
          (fun b =>
            if tx.type = "cost" then
              { b with
                cost := b.cost + effAmount tx
                categories := alUpdate b.categories (effCategory tx) ⟨0, 0⟩
                  (fun cb => { cb with cost := cb.cost + effAmount tx }) }
            else
              { b with
                revenue := b.revenue + effAmount tx
                categories := alUpdate b.categories (effCategory tx) ⟨0, 0⟩
                  (fun cb => { cb with revenue := cb.revenue + effAmount tx }) })
          0 (fun b => by dsimp only; rw [if_pos ht]; simp) rfl
        rw [this, add_zero]
      · rw [if_pos ht]
        refine alUpdate_sum (fun (b : MonthBucket) => b.revenue) _ _ _ _ (effAmount tx) ?_ rfl
        intro b
        dsimp only
        rw [if_neg ht]

theorem extractStep_catCost (acc : List (MonthKey × MonthBucket) × List String)
    (tx : Tx) (k : MonthKey) (c : String) :
    catCostAtMonth (extractStep acc tx).1 k c =
      catCostAtMonth acc.1 k c +
        (if tx.date = some k ∧ effCategory tx = c ∧ tx.type = "cost"
          then effAmount tx else 0) := by
  cases htx : tx.date with
  | none => simp [extractStep, htx]
  | some mk =>
      simp only [extractStep, htx]
      by_cases hk : mk = k
      case neg =>
        have hcond : ¬ (some mk = some k ∧ effCategory tx = c ∧ tx.type = "cost") := by
          rintro ⟨h1, -⟩
          exact hk (Option.some.inj h1)
        rw [if_neg hcond, add_zero]
        simp only [catCostAtMonth, bucketOf]
        rw [alLookup_alUpdate_ne _ _ _ _ _ (fun he => hk he.symm)]
      case pos =>
        subst hk
        simp only [catCostAtMonth, bucketOf]
        rw [alLookup_alUpdate_self, Option.getD_some]
        by_cases ht : tx.type = "cost"
        · rw [if_pos ht]
          dsimp only
          by_cases hc : effCategory tx = c
          · subst hc
            rw [alLookup_alUpdate_self]
            cases hcb : alLookup ((alLookup acc.1 mk).getD emptyMonth).categories
                (effCategory tx) with
            | none => simp [hcb, ht]
            | some cb0 => simp [hcb, ht]
          · rw [alLookup_alUpdate_ne _ _ _ _ _ (fun he => hc he.symm)]
            simp [hc]
        · rw [if_neg ht]
          dsimp only
          by_cases hc : effCategory tx = c
          · subst hc
            rw [alLookup_alUpdate_self]
            cases hcb : alLookup ((alLookup acc.1 mk).getD emptyMonth).categories
                (effCategory tx) with
            | none => simp [hcb, ht]
            | some cb0 => simp [hcb, ht]
          · rw [alLookup_alUpdate_ne _ _ _ _ _ (fun he => hc he.symm)]
            simp [hc]

theorem extractStep_catRevenue (acc : List (MonthKey × MonthBucket) × List String)
    (tx : Tx) (k : MonthKey) (c : String) :
    catRevenueAtMonth (extractStep acc tx).1 k c =
      catRevenueAtMonth acc.1 k c +
        (if tx.date = some k ∧ effCategory tx = c ∧ ¬ tx.type = "cost"
          then effAmount tx else 0) := by
  cases htx : tx.date with
  | none => simp [extractStep, htx]
  | some mk =>
      simp only [extractStep, htx]
      by_cases hk : mk = k
      case neg =>
        have hcond : ¬ (some mk = some k ∧ effCategory tx = c ∧ ¬ tx.type = "cost") := by
          rintro ⟨h1, -⟩
          exact hk (Option.some.inj h1)
        rw [if_neg hcond, add_zero]
        simp only [catRevenueAtMonth, bucketOf]
        rw [alLookup_alUpdate_ne _ _ _ _ _ (fun he => hk he.symm)]
      case pos =>
        subst hk
        simp only [catRevenueAtMonth, bucketOf]
        rw [alLookup_alUpdate_self, Option.getD_some]
        by_cases ht : tx.type = "cost"
        · rw [if_pos ht]
          dsimp only
          by_cases hc : effCategory tx = c
          · subst hc
            rw [alLookup_alUpdate_self]
            cases hcb : alLookup ((alLookup acc.1 mk).getD emptyMonth).categories
                (effCategory tx) with
            | none => simp [hcb, ht]
            | some cb0 => simp [hcb, ht]
          · rw [alLookup_alUpdate_ne _ _ _ _ _ (fun he => hc he.symm)]
            simp [hc]
        · rw [if_neg ht]
          dsimp only
          by_cases hc : effCategory tx = c
          · subst hc
            rw [alLookup_alUpdate_self]
            cases hcb : alLookup ((alLookup acc.1 mk).getD emptyMonth).categories
                (effCategory tx) with
            | none => simp [hcb, ht]
            | some cb0 => simp [hcb, ht]
          · rw [alLookup_alUpdate_ne _ _ _ _ _ (fun he => hc he.symm)]
            simp [hc]

theorem extract_sumCost (txs : List Tx) :
    ∀ (acc : List (MonthKey × MonthBucket) × List String),
      (((txs.foldl extractStep acc).1).map (fun kb => kb.2.cost)).sum =
        (acc.1.map (fun kb => kb.2.cost)).sum +
          ((txs.filter (fun t => t.date.isSome && (t.type == "cost"))).map
            effAmount).sum := by
  induction txs with
  | nil => simp
  | cons tx rest ih =>
      intro acc
      rw [List.foldl_cons, ih, extractStep_sumCost]
      by_cases hP : (tx.date.isSome && (tx.type == "cost")) = true
      · have hprop : tx.date.isSome ∧ tx.type = "cost" := by
          have := Bool.and_eq_true _ _ ▸ hP
          exact ⟨this.1, by simpa using this.2⟩
        rw [if_pos hprop, List.filter_cons, if_pos hP]
        simp only [List.map_cons, List.sum_cons]
        ring
      · have hprop : ¬ (tx.date.isSome ∧ tx.type = "cost") := by
          intro hc
          exact hP (by simp [hc.1, hc.2])
        rw [if_neg hprop, add_zero, List.filter_cons, if_neg hP]

theorem extract_sumRevenue (txs : List Tx) :
    ∀ (acc : List (MonthKey × MonthBucket) × List String),
      (((txs.foldl extractStep acc).1).map (fun kb => kb.2.revenue)).sum =
        (acc.1.map (fun kb => kb.2.revenue)).sum +
          ((txs.filter (fun t => t.date.isSome && !(t.type == "cost"))).map
            effAmount).sum := by
  induction txs with
  | nil => simp
  | cons tx rest ih =>
      intro acc
      rw [List.foldl_cons, ih, extractStep_sumRevenue]
      by_cases hP : (tx.date.isSome && !(tx.type == "cost")) = true
      · have hprop : tx.date.isSome ∧ ¬ tx.type = "cost" := by
          simp only [Bool.and_eq_true, Bool.not_eq_true', beq_eq_false_iff_ne, ne_eq] at hP
          exact ⟨hP.1, hP.2⟩
        rw [if_pos hprop, List.filter_cons, if_pos hP]
        simp only [List.map_cons, List.sum_cons]
        ring
      · have hprop : ¬ (tx.date.isSome ∧ ¬ tx.type = "cost") := by
          intro hc
          apply hP
          simp only [Bool.and_eq_true, Bool.not_eq_true', beq_eq_false_iff_ne, ne_eq]
          exact ⟨hc.1, hc.2⟩
        rw [if_neg hprop, add_zero, List.filter_cons, if_neg hP]

theorem extract_catCost (txs : List Tx) :
    ∀ (acc : List (MonthKey × MonthBucket) × List String) (k : MonthKey) (c : String),
      catCostAtMonth (txs.foldl extractStep acc).1 k c =
        catCostAtMonth acc.1 k c +
          ((txs.filter (fun t => decide (t.date = some k) &&
            decide (effCategory t = c) && (t.type == "cost"))).map effAmount).sum := by
  induction txs with
  | nil => simp
  | cons tx rest ih =>
      intro acc k c
      rw [List.foldl_cons, ih, extractStep_catCost]
      by_cases hP : (decide (tx.date = some k) && decide (effCategory tx = c) &&
          (tx.type == "cost")) = true
      · have hprop : tx.date = some k ∧ effCategory tx = c ∧ tx.type = "cost" := by
          simp only [Bool.and_eq_true, decide_eq_true_eq, beq_iff_eq] at hP
          exact ⟨hP.1.1, hP.1.2, hP.2⟩
        rw [if_pos hprop, List.filter_cons, if_pos hP]
        simp only [List.map_cons, List.sum_cons]
        ring
      · have hprop : ¬ (tx.date = some k ∧ effCategory tx = c ∧ tx.type = "cost") := by
          intro hc
          exact hP (by simp [hc.1, hc.2.1, hc.2.2])
        rw [if_neg hprop, add_zero, List.filter_cons, if_neg hP]

theorem extract_catRevenue (txs : List Tx) :
    ∀ (acc : List (MonthKey × MonthBucket) × List String) (k : MonthKey) (c : String),
      catRevenueAtMonth (txs.foldl extractStep acc).1 k c =
        catRevenueAtMonth acc.1 k c +
          ((txs.filter (fun t => decide (t.date = some k) &&
            decide (effCategory t = c) && !(t.type == "cost"))).map effAmount).sum := by
  induction txs with
  | nil => simp
  | cons tx rest ih =>
      intro acc k c
      rw [List.foldl_cons, ih, extractStep_catRevenue]
      by_cases hP : (decide (tx.date = some k) && decide (effCategory tx = c) &&
          !(tx.type == "cost")) = true
      · have hprop : tx.date = some k ∧ effCategory tx = c ∧ ¬ tx.type = "cost" := by
          simp only [Bool.and_eq_true, Bool.not_eq_true', decide_eq_true_eq,
            beq_eq_false_iff_ne, ne_eq] at hP
          exact ⟨hP.1.1, hP.1.2, hP.2⟩
        rw [if_pos hprop, List.filter_cons, if_pos hP]
        simp only [List.map_cons, List.sum_cons]
        ring
      · have hprop : ¬ (tx.date = some k ∧ effCategory tx = c ∧ ¬ tx.type = "cost") := by
          intro hc
          apply hP
          simp only [Bool.and_eq_true, Bool.not_eq_true', decide_eq_true_eq,
            beq_eq_false_iff_ne, ne_eq]
          exact ⟨⟨hc.1, hc.2.1⟩, hc.2.2⟩
        rw [if_neg hprop, add_zero, List.filter_cons, if_neg hP]

theorem extract_keys_nodup (txs : List Tx) :
    ∀ (acc : List (MonthKey × MonthBucket) × List String),
      (acc.1.map Prod.fst).Nodup → (((txs.foldl extractStep acc).1).map Prod.fst).Nodup := by
  induction txs with
  | nil => exact fun acc h => h
  | cons tx rest ih =>
      intro acc hacc
      rw [List.foldl_cons]
      apply ih
      cases htx : tx.date with
      | none => simpa [extractStep, htx] using hacc
      | some mk =>
          simp only [extractStep, htx]
          exact alUpdate_keys_nodup _ _ _ _ hacc

theorem extract_inner_nodup (txs : List Tx) :
    ∀ (acc : List (MonthKey × MonthBucket) × List String),
      (∀ kb ∈ acc.1, (kb.2.categories.map Prod.fst).Nodup) →
      ∀ kb ∈ (txs.foldl extractStep acc).1, (kb.2.categories.map Prod.fst).Nodup := by
  induction txs with
  | nil => exact fun acc h => h
  | cons tx rest ih =>
      intro acc hacc
      rw [List.foldl_cons]
      apply ih
      intro kb hkb
      cases htx : tx.date with
      | none =>
          refine hacc kb ?_
          simpa [extractStep, htx] using hkb
      | some mk =>
          simp only [extractStep, htx] at hkb
          rcases alUpdate_mem _ _ _ _ _ hkb with hm | he
          · exact hacc kb hm
          · have hbcats :
                (((alLookup acc.1 mk).getD emptyMonth).categories.map Prod.fst).Nodup := by
              cases hlk : alLookup acc.1 mk with
              | none => simp [emptyMonth]
              | some b0 =>
                  have := hacc (mk, b0) (alLookup_mem _ _ _ hlk)
                  simpa using this
            rw [he]
            dsimp only
            by_cases ht : tx.type = "cost"
            · rw [if_pos ht]
              exact alUpdate_keys_nodup _ _ _ _ hbcats
            · rw [if_neg ht]
              exact alUpdate_keys_nodup _ _ _ _ hbcats


/-! ### Orchestrator support lemmas -/

theorem mlPredictionsOf_length (md : List (MonthKey × MonthBucket))
    (oracle : MLOutcome) (l : List (ℚ × ℚ))
    (h : mlPredictionsOf md oracle = some l) : l.length = 3 := by
  unfold mlPredictionsOf at h
  cases hb : buildAndTrainModelData md with
  | none =>
      rw [hb] at h
      exact absurd h (by simp)
  | some d =>
      rw [hb] at h
      cases oracle with
      | exn => exact absurd h (by simp)
      | raw p1 p2 p3 =>
          rw [Option.some.injEq] at h
          rw [← h]
          rfl

theorem mlPredictionsOf_nonneg (md : List (MonthKey × MonthBucket))
    (oracle : MLOutcome) (l : List (ℚ × ℚ))
    (h : mlPredictionsOf md oracle = some l) :
    ∀ p ∈ l, 0 ≤ p.1 ∧ 0 ≤ p.2 := by
  unfold mlPredictionsOf at h
  cases hb : buildAndTrainModelData md with
  | none =>
      rw [hb] at h
      exact absurd h (by simp)
  | some d =>
      rw [hb] at h
      cases oracle with
      | exn => exact absurd h (by simp)
      | raw p1 p2 p3 =>
          rw [Option.some.injEq] at h
          rw [← h]
          intro p hp
          simp only [List.mem_cons, List.not_mem_nil, or_false] at hp
          rcases hp with rfl | rfl | rfl <;>
            exact ⟨le_max_left 0 _, le_max_left 0 _⟩

theorem totalsBaseOf_fst_length (txs : List Tx) (oracle : MLOutcome) :
    ((totalsBaseOf txs oracle).1).length = 3 := by
  unfold totalsBaseOf
  cases hml : mlOf txs oracle with
  | none => exact predictWithSmoothing_length _ _ _ _
  | some l =>
      dsimp only
      split_ifs with hany
      · dsimp only
        rw [List.length_map]
        exact mlPredictionsOf_length _ _ _ hml
      · exact predictWithSmoothing_length _ _ _ _

theorem totalsBaseOf_snd_length (txs : List Tx) (oracle : MLOutcome) :
    ((totalsBaseOf txs oracle).2).length = 3 := by
  unfold totalsBaseOf
  cases hml : mlOf txs oracle with
  | none => exact predictWithSmoothing_length _ _ _ _
  | some l =>
      dsimp only
      split_ifs with hany
      · dsimp only
        rw [List.length_map]
        exact mlPredictionsOf_length _ _ _ hml
      · exact predictWithSmoothing_length _ _ _ _

theorem totalsBaseOf_fst_nonneg (txs : List Tx) (oracle : MLOutcome) :
    ∀ x ∈ (totalsBaseOf txs oracle).1, 0 ≤ x := by
  unfold totalsBaseOf
  cases hml : mlOf txs oracle with
  | none => exact predictWithSmoothing_nonneg _ _ _ _
  | some l =>
      dsimp only
      split_ifs with hany
      · dsimp only
        intro x hx
        rcases List.mem_map.1 hx with ⟨p, hp, rfl⟩
        exact (mlPredictionsOf_nonneg _ _ _ hml p hp).1
      · exact predictWithSmoothing_nonneg _ _ _ _

theorem totalsBaseOf_snd_nonneg (txs : List Tx) (oracle : MLOutcome) :
    ∀ x ∈ (totalsBaseOf txs oracle).2, 0 ≤ x := by
  unfold totalsBaseOf
  cases hml : mlOf txs oracle with
  | none => exact predictWithSmoothing_nonneg _ _ _ _
  | some l =>
      dsimp only
      split_ifs with hany
      · dsimp only
        intro x hx
        rcases List.mem_map.1 hx with ⟨p, hp, rfl⟩
        exact (mlPredictionsOf_nonneg _ _ _ hml p hp).2
      · exact predictWithSmoothing_nonneg _ _ _ _

theorem totalCostPredictionsOf_length (txs : List Tx) (oracle : MLOutcome) :
    (totalCostPredictionsOf txs oracle).length = 3 := by
  simp only [totalCostPredictionsOf]
  split_ifs with h
  · rw [List.length_replicate]
  · exact totalsBaseOf_fst_length txs oracle

theorem totalRevenuePredictionsOf_length (txs : List Tx) (oracle : MLOutcome) :
    (totalRevenuePredictionsOf txs oracle).length = 3 := by
  simp only [totalRevenuePredictionsOf]
  split_ifs with h
  · rw [List.length_replicate]
  · exact totalsBaseOf_snd_length txs oracle

theorem totalCostPredictionsOf_nonneg (txs : List Tx) (oracle : MLOutcome) :
    ∀ x ∈ totalCostPredictionsOf txs oracle, 0 ≤ x := by
  simp only [totalCostPredictionsOf]
  split_ifs with h
  · intro x hx
    rw [List.eq_of_mem_replicate hx]
    exact le_of_lt h.2
  · exact totalsBaseOf_fst_nonneg txs oracle

theorem totalRevenuePredictionsOf_nonneg (txs : List Tx) (oracle : MLOutcome) :
    ∀ x ∈ totalRevenuePredictionsOf txs oracle, 0 ≤ x := by
  simp only [totalRevenuePredictionsOf]
  split_ifs with h
  · intro x hx
    rw [List.eq_of_mem_replicate hx]
    exact le_of_lt h.2
  · exact totalsBaseOf_snd_nonneg txs oracle

theorem netBalancePredictionsOf_length (txs : List Tx) (oracle : MLOutcome) :
    (netBalancePredictionsOf txs oracle).length = 3 := by
  unfold netBalancePredictionsOf
  rw [List.length_zipWith, totalCostPredictionsOf_length, totalRevenuePredictionsOf_length]
  omega

theorem netBalancePredictionsOf_getD (txs : List Tx) (oracle : MLOutcome)
    (i : Nat) (hi : i < 3) :
    (netBalancePredictionsOf txs oracle).getD i 0 =
      (totalRevenuePredictionsOf txs oracle).getD i 0 -
        (totalCostPredictionsOf txs oracle).getD i 0 := by
  have hz : i < (netBalancePredictionsOf txs oracle).length := by
    rw [netBalancePredictionsOf_length]
    exact hi
  have hr : i < (totalRevenuePredictionsOf txs oracle).length := by
    rw [totalRevenuePredictionsOf_length]
    exact hi
  have hc : i < (totalCostPredictionsOf txs oracle).length := by
    rw [totalCostPredictionsOf_length]
    exact hi
  rw [List.getD_eq_getElem _ _ hz, List.getD_eq_getElem _ _ hr,
    List.getD_eq_getElem _ _ hc]
  exact List.getElem_zipWith

theorem catTotalFold_count_aux (monthlyData : List (MonthKey × MonthBucket))
    (cat : String) (months : List MonthKey) :
    ∀ (acc : CatTotal),
      (months.foldl
        (fun acc m =>
          match alLookup (bucketOf monthlyData m).categories cat with
          | none => acc
          | some cb =>
              ⟨acc.cost + cb.cost, acc.revenue + cb.revenue, acc.count + 1⟩)
        acc).count =
      acc.count +
        months.countP (fun m => (alLookup (bucketOf monthlyData m).categories cat).isSome) := by
  induction months with
  | nil => simp
  | cons m rest ih =>
      intro acc
      rw [List.foldl_cons]
      cases hlk : alLookup (bucketOf monthlyData m).categories cat with
      | none =>
          rw [ih]
          simp [List.countP_cons, hlk]
      | some cb =>
          rw [ih]
          simp only [List.countP_cons, hlk, Option.isSome_some, eq_self_iff_true, if_true]
          omega

theorem catTotalFold_count (monthlyData : List (MonthKey × MonthBucket))
    (months : List MonthKey) (cat : String) :
    (catTotalFold monthlyData months cat).count =
      months.countP (fun m => (alLookup (bucketOf monthlyData m).categories cat).isSome) := by
  unfold catTotalFold
  rw [catTotalFold_count_aux]
  simp

theorem alLookup_map_self {β : Type} (g : String → β) (cats : List String)
    (cat : String) (h : cat ∈ cats) :
    alLookup (cats.map (fun c => (c, g c))) cat = some (g cat) := by
  induction cats with
  | nil => simp at h
  | cons c0 rest ih =>
      simp only [List.map_cons, alLookup]
      by_cases hc : cat = c0
      · rw [if_pos hc]
        subst hc
        rfl
      · rw [if_neg hc]
        refine ih ?_
        rcases List.mem_cons.1 h with h1 | h2
        · exact absurd h1 hc
        · exact h2

theorem catTotalOf_eq (txs : List Tx) (cat : String)
    (h : cat ∈ categoriesOf txs) :
    catTotalOf txs cat =
      catTotalFold (monthlyDataOf txs) (statsOf txs).months cat := by
  unfold catTotalOf
  have : (statsOf txs).categoryTotals =
      (categoriesOf txs).map
        (fun c => (c, catTotalFold (monthlyDataOf txs) (statsOf txs).months c)) := rfl
  rw [this, alLookup_map_self _ _ _ h, Option.getD_some]

theorem count_or_one_eq_max (n : Nat) : (if n = 0 then 1 else n) = max 1 n := by
  split_ifs with h <;> omega


theorem reportOf_ok (txs : List Tx) (oracle : MLOutcome)
    (h : isOkE (analyzeFinances (some txs) oracle) = true) :
    analyzeFinances (some txs) oracle = .ok (reportOf txs oracle) := by
  unfold reportOf
  cases he : analyzeFinances (some txs) oracle with
  | ok r => rfl
  | error e =>
      rw [he] at h
      simp [isOkE] at h

/-! ### Claims -/

/-- C1: `analyzeFinances` fails (with one of the two `NoDataError` messages)
exactly when the transaction list is null (`none`) or empty, or feature
extraction yields zero month buckets; in every other case it returns a
report.  The statement is quantified over every outcome of the regression
training/inference step, including an exception (`MLOutcome.exn`), so an
exception in that step never makes the analysis call itself fail. -/
theorem c1_no_data_error_iff :
    ∀ (transactions : Option (List Tx)) (oracle : MLOutcome),
      (∃ e, analyzeFinances transactions oracle = Except.error e) ↔
        (transactions = none ∨
          ∃ txs, transactions = some txs ∧
            (txs = [] ∨ (extractFeatures txs).1 = [])) := by
  intro otxs oracle
  cases otxs with
  | none => simp [analyzeFinances]
  | some txs =>
      by_cases h1 : txs.length = 0
      · have he : txs = [] := List.length_eq_zero.mp h1
        subst he
        simp [analyzeFinances]
      · by_cases h2 : (extractFeatures txs).1.length = 0
        · have he2 : (extractFeatures txs).1 = [] := List.length_eq_zero.mp h2
          simp [analyzeFinances, h1, h2, he2]
        · have hne : txs ≠ [] := fun he => h1 (by simp [he])
          have hne2 : (extractFeatures txs).1 ≠ [] := fun he => h2 (by simp [he])
          simp [analyzeFinances, h1, h2, hne, hne2]

/-- C2: for every series, periods, alpha and fallback average, the
smoothing forecaster returns exactly the list produced by the §4.3
reference algorithm (`specPredict`), and that list has length `periods`.
Both functions are total Lean functions, so the forecaster is pure and
never throws by construction. -/
theorem c2_smoothing_matches_spec :
    ∀ (series : List ℚ) (periods : Nat) (alpha fallbackAverage : ℚ),
      predictWithSmoothing series periods alpha fallbackAverage =
        specPredict series periods alpha fallbackAverage ∧
      (predictWithSmoothing series periods alpha fallbackAverage).length = periods :=
  fun series periods alpha fb =>
    ⟨predictWithSmoothing_eq_spec series periods alpha fb,
     predictWithSmoothing_length series periods alpha fb⟩

/-- C3: for every transaction list with at least one parseable-date record,
the month map built by `extractFeatures` conserves amounts: total bucket
cost equals the sum of coerced amounts over parseable `cost` transactions,
total bucket revenue the sum over parseable non-`cost` transactions; month
keys and the per-month category keys are duplicate-free (each transaction
lands in exactly one month bucket and one category sub-bucket), and each
(month, category) sub-bucket holds exactly the sum of the matching
transactions' amounts. -/
theorem c3_extraction_conserves_amounts (txs : List Tx)
    (_h : ∃ tx ∈ txs, tx.date.isSome) :
    (((extractFeatures txs).1.map (fun kb => kb.2.cost)).sum =
      ((txs.filter (fun t => t.date.isSome && (t.type == "cost"))).map effAmount).sum) ∧
    (((extractFeatures txs).1.map (fun kb => kb.2.revenue)).sum =
      ((txs.filter (fun t => t.date.isSome && !(t.type == "cost"))).map effAmount).sum) ∧
    ((extractFeatures txs).1.map Prod.fst).Nodup ∧
    (∀ kb ∈ (extractFeatures txs).1, (kb.2.categories.map Prod.fst).Nodup) ∧
    (∀ (k : MonthKey) (c : String),
      catCostAtMonth (extractFeatures txs).1 k c =
        ((txs.filter (fun t => decide (t.date = some k) &&
          decide (effCategory t = c) && (t.type == "cost"))).map effAmount).sum) ∧
    (∀ (k : MonthKey) (c : String),
      catRevenueAtMonth (extractFeatures txs).1 k c =
        ((txs.filter (fun t => decide (t.date = some k) &&
          decide (effCategory t = c) && !(t.type == "cost"))).map effAmount).sum) := by
  refine ⟨?_, ?_, ?_, ?_, ?_, ?_⟩
  · rw [extractFeatures, extract_sumCost]
    simp
  · rw [extractFeatures, extract_sumRevenue]
    simp
  · exact extract_keys_nodup txs ([], []) (by simp)
  · exact extract_inner_nodup txs ([], []) (by simp) 
  · intro k c
    rw [extractFeatures, extract_catCost]
    simp [catCostAtMonth, bucketOf, alLookup, emptyMonth]
  · intro k c
    rw [extractFeatures, extract_catRevenue]
    simp [catRevenueAtMonth, bucketOf, alLookup, emptyMonth]

theorem c3_extraction_conserves_amounts_witness :
    (∃ tx ∈ c3txs, tx.date.isSome) ∧
    ((((extractFeatures c3txs).1.map (fun kb => kb.2.cost)).sum =
      ((c3txs.filter (fun t => t.date.isSome && (t.type == "cost"))).map effAmount).sum) ∧
    (((extractFeatures c3txs).1.map (fun kb => kb.2.revenue)).sum =
      ((c3txs.filter (fun t => t.date.isSome && !(t.type == "cost"))).map effAmount).sum) ∧
    ((extractFeatures c3txs).1.map Prod.fst).Nodup ∧
    (∀ kb ∈ (extractFeatures c3txs).1, (kb.2.categories.map Prod.fst).Nodup) ∧
    (∀ (k : MonthKey) (c : String),
      catCostAtMonth (extractFeatures c3txs).1 k c =
        ((c3txs.filter (fun t => decide (t.date = some k) &&
          decide (effCategory t = c) && (t.type == "cost"))).map effAmount).sum) ∧
    (∀ (k : MonthKey) (c : String),
      catRevenueAtMonth (extractFeatures c3txs).1 k c =
        ((c3txs.filter (fun t => decide (t.date = some k) &&
          decide (effCategory t = c) && !(t.type == "cost"))).map effAmount).sum)) :=
  ⟨by decide, c3_extraction_conserves_amounts c3txs (by decide)⟩

/-- C4: the overall spending trend computed by `calculateStatistics`
follows the §4.2 rule (`specTrend`) applied to the sorted monthly cost
series, and in particular monthly costs `[100, 100, 100, 200, 220]`
classify as `increasing` (both under the rule and through
`calculateStatistics` on a month map holding those costs). -/
theorem c4_trend_rule :
    (∀ (monthlyData : List (MonthKey × MonthBucket)) (categories : List String),
      (calculateStatistics monthlyData categories).trend =
        specTrend ((sortKeys (monthlyData.map Prod.fst)).map
          (fun m => (bucketOf monthlyData m).cost))) ∧
    specTrend [100, 100, 100, 200, 220] = "increasing" ∧
    (calculateStatistics c4md []).trend = "increasing" := by
  refine ⟨?_, by with_unfolding_all decide, by with_unfolding_all decide⟩
  intro md cats
  have h : (calculateStatistics md cats).trend =
      calcTrend ((sortKeys (md.map Prod.fst)).map (fun m => (bucketOf md m).cost)) := rfl
  rw [h, calcTrend_eq_spec]

/-- C5: the regression training gate returns `none` (the source returns
`null`, it never throws here) exactly when fewer than 3 distinct months
exist, or when, with window size `min(3, months - 1)`, the sliding-window
construction yields fewer than 2 training examples; training data is
produced only otherwise. -/
theorem c5_training_gate :
    ∀ (monthlyData : List (MonthKey × MonthBucket)),
      buildAndTrainModelData monthlyData = none ↔
        ((sortKeys (monthlyData.map Prod.fst)).length < 3 ∨
          (sortKeys (monthlyData.map Prod.fst)).length -
            min 3 ((sortKeys (monthlyData.map Prod.fst)).length - 1) < 2) := by
  intro md
  simp only [buildAndTrainModelData]
  by_cases h3 : (sortKeys (md.map Prod.fst)).length < 3
  · simp [h3]
  · rw [if_neg h3]
    simp only [List.length_map, List.length_range]
    by_cases h2 : (sortKeys (md.map Prod.fst)).length -
        min 3 ((sortKeys (md.map Prod.fst)).length - 1) < 2
    · simp [h2, h3]
    · simp [h2, h3]


/-- C6 counterexample: with five months of history and raw network outputs
that clamp to zero, the regression output exists and every predicted value
is zero, the totals fall back to smoothing (giving `[100, 100, 100]`), yet
`metadata.modelType` is `"neural-network"` — the claim says it should be
`"statistical"` in this case. -/
theorem c6_model_type_counterexample :
    isOkE (analyzeFinances (some c6txs) c6oracle) = true ∧
    mlOf c6txs c6oracle = some [(0, 0), (0, 0), (0, 0)] ∧
    (reportOf c6txs c6oracle).totalCost = [100, 100, 100] ∧
    (reportOf c6txs c6oracle).modelType = "neural-network" ∧
    (reportOf c6txs c6oracle).modelType ≠ "statistical" := by
  refine ⟨?_, ?_, ?_, ?_, ?_⟩ <;> with_unfolding_all decide

/-- C6 (amended): in every successful report, `metadata.modelType` equals
`"neural-network"` if and only if the regression step produced predictions
(`mlPredictions` non-null) — regardless of whether step 5 actually used
them — and `"statistical"` otherwise.  In particular, when regression
output exists but every predicted value is zero, the totals come from
smoothing while the model type still reads `"neural-network"`. -/
theorem c6_model_type_amended (txs : List Tx) (oracle : MLOutcome) (r : Report)
    (h : analyzeFinances (some txs) oracle = .ok r) :
    (r.modelType = "neural-network" ↔ (mlOf txs oracle).isSome) ∧
    (r.modelType = "statistical" ↔ ¬ (mlOf txs oracle).isSome) := by
  have hr := analyzeFinances_ok txs oracle r h
  subst hr
  have hmt : (analysisCore txs oracle).modelType =
      (if (mlOf txs oracle).isSome then "neural-network" else "statistical") := rfl
  rw [hmt]
  by_cases hs : (mlOf txs oracle).isSome
  · simp [hs]
  · simp [hs]

theorem c6_model_type_amended_witness :
    analyzeFinances (some c6txs) c6oracle = .ok (reportOf c6txs c6oracle) ∧
    (((reportOf c6txs c6oracle).modelType = "neural-network" ↔
        (mlOf c6txs c6oracle).isSome) ∧
      ((reportOf c6txs c6oracle).modelType = "statistical" ↔
        ¬ (mlOf c6txs c6oracle).isSome)) :=
  ⟨reportOf_ok _ _ (by with_unfolding_all decide),
    c6_model_type_amended _ _ _ (reportOf_ok _ _ (by with_unfolding_all decide))⟩

/-- C7 counterexample: category "X" with monthly costs `[100, 100, 112]`
satisfies the §4.2 upward condition of the claim (second-half mean 112
exceeds first-half mean 100 times 1.1), but the successful report's
breakdown lists its trend as `"stable"`, because `getCategoryTrend` uses
the 1.15 / 0.85 thresholds. -/
theorem c7_category_trend_counterexample :
    isOkE (analyzeFinances (some c7txs) MLOutcome.exn) = true ∧
    catCostSeriesOf c7txs "X" = [100, 100, 112] ∧
    claimCatTrend [100, 100, 112] = "up" ∧
    ((alLookup (reportOf c7txs MLOutcome.exn).categoryBreakdown "X").map
      Breakdown.predictedTrend) = some "stable" := by
  refine ⟨?_, ?_, ?_, ?_⟩ <;> with_unfolding_all decide

/-- C7 (amended): in every successful report, each category's
`predictedTrend` is computed with the §4.2 windowing (last up-to-3 months,
first half of size `ceil(n/2)`, `stable` below 2 months) applied to that
category's monthly cost series, but with thresholds 1.15 / 0.85 (labels
`up` / `down` / `stable`) instead of the overall trend's 1.1 / 0.9. -/
theorem c7_category_trend_amended (txs : List Tx) (oracle : MLOutcome)
    (r : Report) (h : analyzeFinances (some txs) oracle = .ok r)
    (cat : String) (b : Breakdown) (hb : (cat, b) ∈ r.categoryBreakdown) :
    b.predictedTrend = amendedCatTrend (catCostSeriesOf txs cat) := by
  have hr := analyzeFinances_ok txs oracle r h
  subst hr
  have hcb : (analysisCore txs oracle).categoryBreakdown = categoryBreakdownOf txs := rfl
  rw [hcb] at hb
  unfold categoryBreakdownOf at hb
  rcases List.mem_map.1 hb with ⟨c0, hc0, heq⟩
  have h1 : c0 = cat := congrArg Prod.fst heq
  have h2 : breakdownEntryOf txs c0 = b := congrArg Prod.snd heq
  subst h1
  rw [← h2]
  have h3 : (breakdownEntryOf txs c0).predictedTrend =
      getCategoryTrend (monthlyDataOf txs) (statsOf txs).months c0 := rfl
  rw [h3, getCategoryTrend_eq_amended]
  rfl

theorem c7_category_trend_amended_witness :
    analyzeFinances (some c7txs) MLOutcome.exn = .ok (reportOf c7txs MLOutcome.exn) ∧
    ("X", c7entry) ∈ (reportOf c7txs MLOutcome.exn).categoryBreakdown ∧
    c7entry.predictedTrend = amendedCatTrend (catCostSeriesOf c7txs "X") :=
  ⟨reportOf_ok c7txs MLOutcome.exn (by with_unfolding_all decide),
    by with_unfolding_all decide,
    c7_category_trend_amended c7txs MLOutcome.exn (reportOf c7txs MLOutcome.exn)
      (reportOf_ok c7txs MLOutcome.exn (by with_unfolding_all decide))
      "X" c7entry (by with_unfolding_all decide)⟩

/-- C8 counterexample: with one month of cost 100 and revenue 200, the
successful report's first net-balance entry is `100 = revenue - cost`,
not `cost - revenue = -100` as the claim states. -/
theorem c8_net_balance_counterexample :
    isOkE (analyzeFinances (some c8txs) MLOutcome.exn) = true ∧
    (reportOf c8txs MLOutcome.exn).totalCost.getD 0 0 = 100 ∧
    (reportOf c8txs MLOutcome.exn).totalRevenue.getD 0 0 = 200 ∧
    (reportOf c8txs MLOutcome.exn).netBalance.getD 0 0 = 100 ∧
    (reportOf c8txs MLOutcome.exn).netBalance.getD 0 0 ≠
      (reportOf c8txs MLOutcome.exn).totalCost.getD 0 0 -
        (reportOf c8txs MLOutcome.exn).totalRevenue.getD 0 0 := by
  refine ⟨?_, ?_, ?_, ?_, ?_⟩ <;> with_unfolding_all decide

/-- C8 (amended): in every successful report, `predictions.netBalance` is
an ordered series of exactly 3 values in which each entry equals that
period's predicted **revenue minus cost** (not cost minus revenue); it is
never clamped and may be negative, while every entry of the total cost and
total revenue series is non-negative. -/
theorem c8_net_balance_amended (txs : List Tx) (oracle : MLOutcome) (r : Report)
    (h : analyzeFinances (some txs) oracle = .ok r) :
    r.totalCost.length = 3 ∧ r.totalRevenue.length = 3 ∧ r.netBalance.length = 3 ∧
    (∀ i : Nat, i < 3 →
      r.netBalance.getD i 0 = r.totalRevenue.getD i 0 - r.totalCost.getD i 0) ∧
    (∀ x ∈ r.totalCost, 0 ≤ x) ∧ (∀ x ∈ r.totalRevenue, 0 ≤ x) := by
  have hr := analyzeFinances_ok txs oracle r h
  subst hr
  exact ⟨totalCostPredictionsOf_length txs oracle,
    totalRevenuePredictionsOf_length txs oracle,
    netBalancePredictionsOf_length txs oracle,
    fun i hi => netBalancePredictionsOf_getD txs oracle i hi,
    totalCostPredictionsOf_nonneg txs oracle,
    totalRevenuePredictionsOf_nonneg txs oracle⟩

theorem c8_net_balance_amended_witness :
    analyzeFinances (some c8txs) MLOutcome.exn = .ok (reportOf c8txs MLOutcome.exn) ∧
    ((reportOf c8txs MLOutcome.exn).totalCost.length = 3 ∧
     (reportOf c8txs MLOutcome.exn).totalRevenue.length = 3 ∧
     (reportOf c8txs MLOutcome.exn).netBalance.length = 3 ∧
     (∀ i : Nat, i < 3 →
       (reportOf c8txs MLOutcome.exn).netBalance.getD i 0 =
         (reportOf c8txs MLOutcome.exn).totalRevenue.getD i 0 -
           (reportOf c8txs MLOutcome.exn).totalCost.getD i 0) ∧
     (∀ x ∈ (reportOf c8txs MLOutcome.exn).totalCost, 0 ≤ x) ∧
     (∀ x ∈ (reportOf c8txs MLOutcome.exn).totalRevenue, 0 ≤ x)) :=
  ⟨reportOf_ok _ _ (by with_unfolding_all decide),
    c8_net_balance_amended _ _ _ (reportOf_ok _ _ (by with_unfolding_all decide))⟩

/-- C9 counterexample: the category "Ghost" appears in the input (on a
transaction whose date fails to parse) but does not appear in the returned
category set at all, contradicting the claim that such categories appear
exactly once. -/
theorem c9_category_set_counterexample :
    (∃ tx ∈ c9txs, effCategory tx = "Ghost" ∧ tx.date = none) ∧
    ¬ ((extractFeatures c9txs).2.count "Ghost" = 1) := by
  refine ⟨?_, ?_⟩ <;> with_unfolding_all decide

/-- C9 (amended): a category string appears in the `CategorySet` returned
by `extractFeatures` exactly once if it is the effective category (missing
or empty read as "Other") of at least one transaction whose date parses,
and zero times otherwise — categories occurring only on unparseable-date
transactions are excluded. -/
theorem c9_category_set_amended :
    ∀ (txs : List Tx) (c : String),
      (extractFeatures txs).2.count c =
        (if ∃ tx ∈ txs, tx.date.isSome ∧ effCategory tx = c then 1 else 0) := by
  intro txs c
  have hnd : ((extractFeatures txs).2).Nodup :=
    extract_cats_nodup txs ([], []) (by simp)
  have hmem : c ∈ (extractFeatures txs).2 ↔
      ∃ tx ∈ txs, tx.date.isSome ∧ effCategory tx = c := by
    have := extract_cats_mem txs ([], []) c
    simpa [extractFeatures] using this
  by_cases h : ∃ tx ∈ txs, tx.date.isSome ∧ effCategory tx = c
  · rw [if_pos h]
    exact List.count_eq_one_of_mem hnd (hmem.mpr h)
  · rw [if_neg h]
    exact List.count_eq_zero.mpr (fun hc => h (hmem.mp hc))

/-- C10: in every successful analysis, the per-category average used as
the smoothing fallback and (together with its revenue counterpart) as
`categoryBreakdown.currentAverage` equals the category's total cost (resp.
revenue) divided by the number of distinct months in which the category
has any recorded activity (minimum divisor 1) — not by the total number of
months analyzed — so a category with positive cost active in fewer months
than were analyzed gets a strictly higher average than its
per-analyzed-month mean. -/
theorem c10_category_average (txs : List Tx) (oracle : MLOutcome) (r : Report)
    (h : analyzeFinances (some txs) oracle = .ok r) (cat : String)
    (b : Breakdown) (hb : (cat, b) ∈ r.categoryBreakdown) :
    (catTotalOf txs cat).count =
      (statsOf txs).months.countP
        (fun m => (alLookup (bucketOf (monthlyDataOf txs) m).categories cat).isSome) ∧
    catAvgCostOf txs cat =
      (catTotalOf txs cat).cost / ((max 1 (catTotalOf txs cat).count : Nat) : ℚ) ∧
    catAvgRevenueOf txs cat =
      (catTotalOf txs cat).revenue / ((max 1 (catTotalOf txs cat).count : Nat) : ℚ) ∧
    b.currentAverage =
      (if catAvgCostOf txs cat = 0 then catAvgRevenueOf txs cat
        else catAvgCostOf txs cat) ∧
    (cat, predictWithSmoothing (catCostSeriesOf txs cat) 3 0.3 (catAvgCostOf txs cat))
      ∈ r.predCosts ∧
    (0 < (catTotalOf txs cat).cost → 0 < (catTotalOf txs cat).count →
      (catTotalOf txs cat).count < (statsOf txs).months.length →
      (catTotalOf txs cat).cost / ((max 1 (catTotalOf txs cat).count : Nat) : ℚ) >
        (catTotalOf txs cat).cost / (((statsOf txs).months.length : Nat) : ℚ)) := by
  have hr := analyzeFinances_ok txs oracle r h
  subst hr
  have hcb : (analysisCore txs oracle).categoryBreakdown = categoryBreakdownOf txs := rfl
  rw [hcb] at hb
  unfold categoryBreakdownOf at hb
  rcases List.mem_map.1 hb with ⟨c0, hc0, heq⟩
  have h1 : c0 = cat := congrArg Prod.fst heq
  subst h1
  have h2 : breakdownEntryOf txs c0 = b := congrArg Prod.snd heq
  refine ⟨?_, ?_, ?_, ?_, ?_, ?_⟩
  · rw [catTotalOf_eq txs c0 hc0, catTotalFold_count]
  · rw [catAvgCostOf, count_or_one_eq_max]
  · rw [catAvgRevenueOf, count_or_one_eq_max]
  · rw [← h2]
    rfl
  · have hpc : (analysisCore txs oracle).predCosts = categoryPredictionsOf txs := rfl
    rw [hpc]
    unfold categoryPredictionsOf
    exact List.mem_map.2 ⟨c0, hc0, rfl⟩
  · intro hcost hcount hlt
    have hmax : max 1 (catTotalOf txs c0).count = (catTotalOf txs c0).count :=
      Nat.max_eq_right hcount
    rw [hmax]
    have hc0pos : (0 : ℚ) < ((catTotalOf txs c0).count : ℚ) := by exact_mod_cast hcount
    have hclt : ((catTotalOf txs c0).count : ℚ) < ((statsOf txs).months.length : ℚ) := by
      exact_mod_cast hlt
    exact div_lt_div_of_pos_left hcost hc0pos hclt

theorem c10_category_average_witness :
    analyzeFinances (some c10txs) MLOutcome.exn = .ok (reportOf c10txs MLOutcome.exn) ∧
    ("X", c10entry) ∈ (reportOf c10txs MLOutcome.exn).categoryBreakdown ∧
    0 < (catTotalOf c10txs "X").cost ∧
    0 < (catTotalOf c10txs "X").count ∧
    (catTotalOf c10txs "X").count < (statsOf c10txs).months.length ∧
    ((catTotalOf c10txs "X").count =
      (statsOf c10txs).months.countP
        (fun m => (alLookup (bucketOf (monthlyDataOf c10txs) m).categories "X").isSome) ∧
    catAvgCostOf c10txs "X" =
      (catTotalOf c10txs "X").cost / ((max 1 (catTotalOf c10txs "X").count : Nat) : ℚ) ∧
    catAvgRevenueOf c10txs "X" =
      (catTotalOf c10txs "X").revenue / ((max 1 (catTotalOf c10txs "X").count : Nat) : ℚ) ∧
    c10entry.currentAverage =
      (if catAvgCostOf c10txs "X" = 0 then catAvgRevenueOf c10txs "X"
        else catAvgCostOf c10txs "X") ∧
    ("X", predictWithSmoothing (catCostSeriesOf c10txs "X") 3 0.3 (catAvgCostOf c10txs "X"))
      ∈ (reportOf c10txs MLOutcome.exn).predCosts ∧
    (0 < (catTotalOf c10txs "X").cost → 0 < (catTotalOf c10txs "X").count →
      (catTotalOf c10txs "X").count < (statsOf c10txs).months.length →
      (catTotalOf c10txs "X").cost / ((max 1 (catTotalOf c10txs "X").count : Nat) : ℚ) >
        (catTotalOf c10txs "X").cost / (((statsOf c10txs).months.length : Nat) : ℚ))) :=
  ⟨reportOf_ok _ _ (by with_unfolding_all decide),
    by with_unfolding_all decide,
    by with_unfolding_all decide,
    by with_unfolding_all decide,
    by with_unfolding_all decide,
    c10_category_average _ _ _ (reportOf_ok _ _ (by with_unfolding_all decide))
      "X" c10entry (by with_unfolding_all decide)⟩
